import Mathlib

/-!
# Verification of the `combine_docs_chain` core of micahriggan/langchainjs

Shallow embedding of `src/langchain/chains/combine_docs_chain.ts`, which
contains two pieces:

* `StuffDocumentsChain` — a pipeline stage that joins a list of documents
  into one context string and forwards it (plus the other inputs) to an
  inner `LLMChain`, together with its serialize/deserialize contract;
* `OpenAI` — a batched generation engine that chunks prompts into batches,
  issues one remote call per batch, accumulates token usage, and regroups
  the flat completion stream into per-prompt generation groups.

External collaborators that are not part of the sources (`chunkArray` and
`resolveConfigFromFile` from `../util`, the `Document` class, the inner
`LLMChain`, and the `backOff` retry wrapper from the `exponential-backoff`
package) are modelled from the specification; each such definition carries
a doc comment saying so.  Remote calls and inner-chain invocations are
embedded as explicit function parameters, and the list of requests/inputs
actually handed to the collaborator is returned alongside the result so
that "the collaborator receives zero invocations" is a statement about the
returned trace.
-/

namespace LangChain

/-! ## Chunker (`chunkArray` from `../util`, modelled from the spec) -/

/-- Error taxonomy for the utility layer. -/
inductive UtilError where
  | invalidArgument
deriving DecidableEq, Repr

/-- Core chunking recursion: splits a list into contiguous chunks of size
`kp + 1` (the successor encoding makes the recursion structurally
decreasing).  The last chunk may be shorter. -/
def chunksOfCore (kp : Nat) : List α → List (List α)
  | [] => []
  | x :: xs => (x :: xs.take kp) :: chunksOfCore kp (xs.drop kp)
termination_by l => l.length
decreasing_by simp [List.length_drop]; omega

/-- Modelled from the spec: `chunkArray` (imported from `../util`, not among
the sources).  Given an ordered sequence and a chunk size, returns the
ordered sequence of contiguous sub-sequences of that size (last possibly
shorter); fails with `InvalidArgument` when the chunk size is not positive
(sizes are naturals here, so "not positive" is `0`). -/
def chunkArray (xs : List α) (k : Nat) : Except UtilError (List (List α)) :=
  if k = 0 then .error .invalidArgument
  else .ok (chunksOfCore (k - 1) xs)

theorem chunksOfCore_nil (kp : Nat) : chunksOfCore kp ([] : List α) = [] := by
  simp [chunksOfCore]

theorem chunksOfCore_cons (kp : Nat) (x : α) (xs : List α) :
    chunksOfCore kp (x :: xs) = (x :: xs.take kp) :: chunksOfCore kp (xs.drop kp) := by
  rw [chunksOfCore]

/-- Concatenating the chunks reproduces the input. -/
theorem chunksOfCore_flatten (kp : Nat) (xs : List α) :
    (chunksOfCore kp xs).flatten = xs := by
  have H : ∀ n (xs : List α), xs.length ≤ n → (chunksOfCore kp xs).flatten = xs := by
    intro n
    induction n with
    | zero =>
      intro xs hx
      have : xs = [] := List.length_eq_zero.mp (Nat.le_zero.mp hx)
      simp [this, chunksOfCore_nil]
    | succ n ih =>
      intro xs hx
      cases xs with
      | nil => simp [chunksOfCore_nil]
      | cons x tl =>
        rw [chunksOfCore_cons]
        have hdrop : (tl.drop kp).length ≤ n := by
          simp only [List.length_drop]
          simp only [List.length_cons] at hx
          omega
        simp [ih _ hdrop, List.take_append_drop]
  exact H xs.length xs le_rfl

/-- Chunking the concatenation of lists that each have length `kp + 1`
with chunk size `kp + 1` recovers exactly those lists. -/
theorem chunksOfCore_flatten_of_uniform (kp : Nat) (ls : List (List α))
    (h : ∀ l ∈ ls, l.length = kp + 1) :
    chunksOfCore kp ls.flatten = ls := by
  induction ls with
  | nil => simp [chunksOfCore_nil]
  | cons l ls ih =>
    have hl : l.length = kp + 1 := h l (by simp)
    cases l with
    | nil => simp at hl
    | cons y ys =>
      have hys : ys.length = kp := by simpa using hl
      rw [List.flatten_cons, List.cons_append, chunksOfCore_cons]
      rw [List.take_left' hys, List.drop_left' hys]
      rw [ih (fun l hm => h l (by simp [hm]))]

/-! ## Documents and chain values -/

/-- Modelled from the spec: `Document` (imported from `../document`, not
among the sources) is a text payload; the stuffing stage reads only its
`pageContent`, ignoring any other attributes it may carry. -/
structure Document where
  pageContent : String
deriving DecidableEq, Repr

/-- A value stored in a `ChainValues` map.  The stage only ever inspects
the value at its input key (cast to a `Document` list in the source); other
values are passed through opaquely, so a small closed universe suffices. -/
inductive ChainValue where
  | docs (ds : List Document)
  | str (s : String)
  | num (n : Int)
deriving DecidableEq, Repr

/-- Embedding of `ChainValues`: a string-keyed map, embedded as an association list
(JavaScript objects have unique keys; all properties below are stated
through `lookup`). -/
abbrev ChainValues := List (String × ChainValue)

/-- Property lookup on a `ChainValues` object. -/
def lookup (m : ChainValues) (k : String) : Option ChainValue :=
  match m with
  | [] => none
  | (k', v) :: rest => if k' = k then some v else lookup rest k

/-- Rest-destructuring `const { [k]: _, ...rest } = m`: the map without key `k`. -/
def removeKey (m : ChainValues) (k : String) : ChainValues :=
  match m with
  | [] => []
  | (k', v) :: rest => if k' = k then removeKey rest k else (k', v) :: removeKey rest k

/-- Spread-with-override `{ ...m, [k]: v }`: binds `k` to `v`, replacing any
existing binding and keeping every other binding. -/
def setKey (m : ChainValues) (k : String) (v : ChainValue) : ChainValues :=
  removeKey m k ++ [(k, v)]

/-- The unchecked TypeScript cast `docs as Document[]`: inputs whose value
at the input key is not a document list are outside the modelled domain. -/
def asDocs : ChainValue → List Document
  | .docs ds => ds
  | _ => []

/-! ## StuffDocumentsChain -/

/-- The key configuration of a `StuffDocumentsChain` (the fields of the
class other than the inner chain). -/
structure StuffConfig where
  inputKey : String := "input_documents"
  outputKey : String := "output_text"
  documentVariableName : String := "context"
deriving DecidableEq, Repr

/-- The default configuration produced by the class field initializers. -/
def defaultStuffConfig : StuffConfig := {}

/-- Embedding of `StuffDocumentsChain._call` (source lines 53-65).  The
inner `this.llmChain.call` collaborator is passed as the function
`innerCall`; the second component of the result is the list of inputs the
collaborator was invoked with (so "invoked exactly once with `m`" is
"the trace is `[m]`").  `run` on the stage delegates to `_call`. -/
def StuffDocumentsChain._call (c : StuffConfig) (innerCall : ChainValues → ChainValues)
    (values : ChainValues) : Except String ChainValues × List ChainValues :=
  match lookup values c.inputKey with
  | none => (.error ("Document key " ++ c.inputKey ++ " not found."), [])
  | some v =>
    let texts := (asDocs v).map Document.pageContent
    let text := String.intercalate "\n\n" texts
    let merged := setKey (removeKey values c.inputKey) c.documentVariableName (.str text)
    (.ok (innerCall merged), [merged])

/-! ## Serialization of the stuffing stage -/

/-- Modelled from the spec: the serialized configuration of the inner
`LLMChain` collaborator (`SerializedLLMChain` from `./index`, not among the
sources) — a reconstruction record with a type tag and opaque parameters. -/
structure SerializedLLMChain where
  tag : String
  params : List (String × String)
deriving DecidableEq, Repr

/-- Modelled from the spec: the inner pipeline collaborator (`LLMChain`
from `./index`, not among the sources) exposes a serialize/deserialize pair
producing/consuming a `SerializedLLMChain`; its reconstruction data is its
configuration. -/
structure LLMChain where
  config : SerializedLLMChain
deriving DecidableEq, Repr

/-- Modelled from the spec: `LLMChain.serialize` produces the component's
own `SerializedLLMChain`. -/
def LLMChain.serialize (c : LLMChain) : SerializedLLMChain := c.config

/-- Modelled from the spec: `LLMChain.deserialize` reconstructs the
component from its `SerializedLLMChain`. -/
def LLMChain.deserialize (d : SerializedLLMChain) : LLMChain := ⟨d⟩

/-- The whole stuffing stage: key configuration plus the inner chain. -/
structure StuffDocumentsChain where
  llmChain : LLMChain
  keys : StuffConfig
deriving DecidableEq, Repr

/-- Embedding of the `StuffDocumentsChain` constructor: absent optional
fields fall back to the class-field defaults. -/
def mkStuffDocumentsChain (llmChain : LLMChain) (inputKey : Option String := none)
    (outputKey : Option String := none) (documentVariableName : Option String := none) :
    StuffDocumentsChain :=
  { llmChain := llmChain
    keys :=
      { inputKey := inputKey.getD defaultStuffConfig.inputKey
        outputKey := outputKey.getD defaultStuffConfig.outputKey
        documentVariableName := documentVariableName.getD defaultStuffConfig.documentVariableName } }

/-- Embedding of `SerializedStuffDocumentsChain`: the `_type` tag is the constant
`"stuff_documents_chain"`, so only the two optional inner-chain fields are
recorded. -/
structure SerializedStuffDocumentsChain where
  llm_chain : Option SerializedLLMChain := none
  llm_chain_path : Option String := none
deriving DecidableEq, Repr

/-- Error taxonomy for configuration resolution. -/
inductive ConfigError where
  | configResolution
deriving DecidableEq, Repr

/-- Modelled from the spec: `resolveConfigFromFile` (imported from
`../util`, not among the sources).  Given the inline field and the path
field of a serialized record, returns the inline value, or resolves the
path through the external file-reading collaborator `env`; supplying
neither, both, or an unresolvable path fails with `ConfigResolution`. -/
def resolveConfigFromFile (env : String → Option SerializedLLMChain)
    (inl : Option SerializedLLMChain) (path : Option String) :
    Except ConfigError SerializedLLMChain :=
  match inl, path with
  | some c, none => .ok c
  | none, some p =>
    match env p with
    | some c => .ok c
    | none => .error .configResolution
  | _, _ => .error .configResolution

/-- Embedding of `StuffDocumentsChain.serialize` (source lines 82-87):
always the inline form, embedding the inner chain's own serialization. -/
def StuffDocumentsChain.serialize (c : StuffDocumentsChain) : SerializedStuffDocumentsChain :=
  { llm_chain := some c.llmChain.serialize }

/-- Embedding of `StuffDocumentsChain.deserialize` (source lines 71-80):
resolves the inner configuration (inline or via the external location) and
reconstructs the stage through the constructor, passing only the inner
chain. -/
def StuffDocumentsChain.deserialize (env : String → Option SerializedLLMChain)
    (data : SerializedStuffDocumentsChain) : Except ConfigError StuffDocumentsChain :=
  match resolveConfigFromFile env data.llm_chain data.llm_chain_path with
  | .error e => .error e
  | .ok c => .ok (mkStuffDocumentsChain (LLMChain.deserialize c))

/-! ## OpenAI batch generation engine

The remote transport (`this.client.createCompletion` wrapped in the
external `backOff` retry combinator, source lines 349-357) is embedded as
one fallible function `call : CompletionRequest → Except ε CompletionResponse`
per-batch: a `.error` is the `RetryExhausted` outcome wrapping the last
underlying failure, a `.ok` is the first successful attempt.  `_generate`
additionally returns the list of requests actually handed to `call`, so
invocation counts are observable.  Floating-point sampling parameters
(temperature, top-p, penalties) and the free-form `modelKwargs` are copied
verbatim from the configuration into every request and never inspected by
the engine; they are omitted from the request record, which keeps the
fields the claims mention (model, `n`, stop, prompt). -/

/-- Engine configuration: the `OpenAI` class fields this core reads, with
the source's field-initializer defaults. -/
structure OpenAIConfig where
  modelName : String := "text-davinci-003"
  n : Nat := 1
  batchSize : Nat := 20
  maxRetries : Nat := 6
  stop : Option (List String) := none
deriving DecidableEq, Repr

/-- A completion request (`CreateCompletionRequest`): the fields the engine
sets and the claims mention. -/
structure CompletionRequest where
  model : String
  n : Nat
  stop : Option (List String)
  prompt : List String := []
deriving DecidableEq, Repr

/-- One choice of a completion response
(`CreateCompletionResponseChoicesInner`); `logprobs` is an opaque payload,
carried through untouched. -/
structure Choice where
  text : Option String := none
  finish_reason : Option String := none
  logprobs : Option Nat := none
deriving DecidableEq, Repr

/-- Per-batch usage counters as reported by the remote response
(`data.usage`), each field optional. -/
structure Usage where
  completion_tokens : Option Nat := none
  prompt_tokens : Option Nat := none
  total_tokens : Option Nat := none
deriving DecidableEq, Repr

/-- A remote completion response (`data`): an ordered choice list and
optional usage counters. -/
structure CompletionResponse where
  choices : List Choice
  usage : Option Usage := none
deriving DecidableEq, Repr

/-- The accumulated token usage (source type `TokenUsage`). -/
structure TokenUsage where
  completionTokens : Option Nat := none
  promptTokens : Option Nat := none
  totalTokens : Option Nat := none
deriving DecidableEq, Repr

/-- One counter of the accumulation step (source lines 319-330): the guard
`if (counter)` is JavaScript truthiness, so an absent or zero-valued batch
counter leaves the accumulator untouched; a nonzero one adds onto the
accumulator, an absent accumulator counting as `0`. -/
def addCounter (acc : Option Nat) (v : Option Nat) : Option Nat :=
  match v with
  | some n => if n = 0 then acc else some (acc.getD 0 + n)
  | none => acc

/-- Folding one batch response's usage (`data.usage ?? {}`) into the
running `TokenUsage` (source lines 313-331). -/
def addUsage (acc : TokenUsage) (u : Option Usage) : TokenUsage :=
  let d := u.getD {}
  { completionTokens := addCounter acc.completionTokens d.completion_tokens
    promptTokens := addCounter acc.promptTokens d.prompt_tokens
    totalTokens := addCounter acc.totalTokens d.total_tokens }

/-- The usage accumulated over a sequence of batch responses, in batch
order. -/
def accumulateUsage (us : List (Option Usage)) : TokenUsage :=
  us.foldl addUsage {}

/-- Errors of a `generate` call. -/
inductive GenError (ε : Type) where
  | invalidArgument
  | configConflict
  | transport (e : ε)
deriving DecidableEq, Repr

/-- Generation metadata (`generationInfo`, source lines 336-339). -/
structure GenerationInfo where
  finishReason : Option String
  logprobs : Option Nat
deriving DecidableEq, Repr

/-- One generation of the result (source lines 334-340). -/
structure Generation where
  text : String
  generationInfo : GenerationInfo
deriving DecidableEq, Repr

/-- Embedding of `llmOutput` of the result (source line 344). -/
structure LLMOutput where
  tokenUsage : TokenUsage
deriving DecidableEq, Repr

/-- The `LLMResult` returned by `_generate` (source lines 342-345). -/
structure LLMResult where
  generations : List (List Generation)
  llmOutput : LLMOutput
deriving DecidableEq, Repr

/-- Mapping one response choice to a `Generation` (source lines 334-340):
`text ?? ""` plus the metadata record. -/
def choiceToGeneration (c : Choice) : Generation :=
  { text := c.text.getD ""
    generationInfo := { finishReason := c.finish_reason, logprobs := c.logprobs } }

/-- Embedding of `invocationParams` (source lines 254-268) restricted to the request
fields modelled here; `stop` starts as the configured default. -/
def invocationParams (cfg : OpenAIConfig) : CompletionRequest :=
  { model := cfg.modelName, n := cfg.n, stop := cfg.stop }

/-- The assignment `params.stop = stop ?? params.stop` (source line 305): the override
replaces the configured default when present. -/
def effectiveParams (cfg : OpenAIConfig) (stop : Option (List String)) : CompletionRequest :=
  let params := invocationParams cfg
  { params with
    stop :=
      match stop with
      | some s => some s
      | none => params.stop }

/-- The request issued for one batch (`{ ...params, prompt: subPrompts[i] }`,
source lines 308-311). -/
def requestFor (cfg : OpenAIConfig) (stop : Option (List String)) (batch : List String) :
    CompletionRequest :=
  { effectiveParams cfg stop with prompt := batch }

/-- The per-batch loop of `_generate` (source lines 307-331): issues one
call per batch in order, appends its choices to the flat accumulator and
folds its usage; the first failure aborts.  The second component is the
trace of requests handed to `call`. -/
def runBatches (call : CompletionRequest → Except ε CompletionResponse)
    (params : CompletionRequest) :
    List (List String) → List Choice → TokenUsage →
      Except (GenError ε) (List Choice × TokenUsage) × List CompletionRequest
  | [], choices, usage => (.ok (choices, usage), [])
  | b :: bs, choices, usage =>
    let req := { params with prompt := b }
    match call req with
    | .error e => (.error (.transport e), [req])
    | .ok data =>
      let rest := runBatches call params bs (choices ++ data.choices) (addUsage usage data.usage)
      (rest.1, req :: rest.2)

/-- Embedding of `OpenAI._generate` (source lines 295-346): chunk the
prompts into batches, fail fast on a stop-sequence conflict
(`if (this.stop && stop)` — definedness of both, source lines 300-302),
run the batches, then regroup the flat choice list by the replication
factor `n` and build the result. -/
def OpenAI._generate (cfg : OpenAIConfig)
    (call : CompletionRequest → Except ε CompletionResponse)
    (prompts : List String) (stop : Option (List String)) :
    Except (GenError ε) LLMResult × List CompletionRequest :=
  match chunkArray prompts cfg.batchSize with
  | .error _ => (.error .invalidArgument, [])
  | .ok subPrompts =>
    if cfg.stop.isSome && stop.isSome then (.error .configConflict, [])
    else
      match runBatches call (effectiveParams cfg stop) subPrompts [] {} with
      | (.error e, reqs) => (.error e, reqs)
      | (.ok (choices, tokenUsage), reqs) =>
        match chunkArray choices cfg.n with
        | .error _ => (.error .invalidArgument, reqs)
        | .ok chunks =>
          (.ok { generations := chunks.map (fun promptChoices => promptChoices.map choiceToGeneration)
                 llmOutput := { tokenUsage := tokenUsage } },
           reqs)

/-- Decidable equality of `Except` results, so concrete runs can be checked
by `decide`. -/
instance {ε α : Type} [DecidableEq ε] [DecidableEq α] : DecidableEq (Except ε α) := fun a b =>
  match a, b with
  | .ok x, .ok y =>
    if h : x = y then .isTrue (by rw [h])
    else .isFalse (fun hc => h (by injection hc))
  | .ok _, .error _ => .isFalse (fun hc => Except.noConfusion hc)
  | .error _, .ok _ => .isFalse (fun hc => Except.noConfusion hc)
  | .error x, .error y =>
    if h : x = y then .isTrue (by rw [h])
    else .isFalse (fun hc => h (by injection hc))

/-! ## Lookup lemmas for `ChainValues` -/

theorem lookup_removeKey (m : ChainValues) (k k' : String) :
    lookup (removeKey m k) k' = if k' = k then none else lookup m k' := by
  induction m with
  | nil =>
    simp only [removeKey, lookup]
    split <;> rfl
  | cons hd tl ih =>
    obtain ⟨a, v⟩ := hd
    by_cases hak : a = k
    · subst hak
      by_cases hk' : k' = a
      · subst hk'
        simp [removeKey, lookup, ih]
      · have h2 : ¬ a = k' := fun h => hk' h.symm
        simp [removeKey, lookup, ih, hk', h2]
    · by_cases hak' : a = k'
      · have h2 : ¬ k' = k := fun h => hak (hak'.trans h)
        simp [removeKey, lookup, hak, hak', h2]
      · simp [removeKey, lookup, hak, hak', ih]

theorem lookup_append (m₁ m₂ : ChainValues) (k : String) :
    lookup (m₁ ++ m₂) k =
      (match lookup m₁ k with
        | some v => some v
        | none => lookup m₂ k) := by
  induction m₁ with
  | nil => simp [lookup]
  | cons hd tl ih =>
    obtain ⟨a, v⟩ := hd
    by_cases h : a = k <;> simp [lookup, h, ih]

theorem lookup_setKey (m : ChainValues) (k k' : String) (v : ChainValue) :
    lookup (setKey m k v) k' = if k' = k then some v else lookup m k' := by
  unfold setKey
  rw [lookup_append, lookup_removeKey]
  by_cases h : k' = k
  · simp [h, lookup]
  · have : ¬ k = k' := fun hk => h hk.symm
    simp only [if_neg h, lookup, if_neg this]
    cases lookup m k' <;> rfl

/-! ## Claims about the document stuffing stage -/

/-- Claim C4 (amended): for every input map binding the configured input
key to a document list, and configurations whose input key and context key
are distinct, `_call` invokes the inner component exactly once (the trace
is a single map `m`) and returns the inner component's result unchanged,
where `m` omits the input key, keeps every other key of the input map
unchanged **except the context key**, and binds the context key to the
documents' contents joined in order by `"\n\n"` — overwriting any prior
binding of the context key (this overwrite is what the amendment adds to
the original claim). -/
theorem stuffCall_merges_and_delegates (c : StuffConfig)
    (innerCall : ChainValues → ChainValues) (values : ChainValues) (ds : List Document)
    (hkeys : c.inputKey ≠ c.documentVariableName)
    (hin : lookup values c.inputKey = some (.docs ds)) :
    ∃ m, StuffDocumentsChain._call c innerCall values = (.ok (innerCall m), [m]) ∧
      lookup m c.inputKey = none ∧
      (∀ k, k ≠ c.inputKey → k ≠ c.documentVariableName → lookup m k = lookup values k) ∧
      lookup m c.documentVariableName =
        some (.str (String.intercalate "\n\n" (ds.map Document.pageContent))) := by
  refine ⟨setKey (removeKey values c.inputKey) c.documentVariableName
      (.str (String.intercalate "\n\n" (ds.map Document.pageContent))), ?_, ?_, ?_, ?_⟩
  · simp [StuffDocumentsChain._call, hin, asDocs]
  · rw [lookup_setKey, if_neg hkeys, lookup_removeKey, if_pos rfl]
  · intro k hk1 hk2
    rw [lookup_setKey, if_neg hk2, lookup_removeKey, if_neg hk1]
  · rw [lookup_setKey, if_pos rfl]

/-- Witness for C4 (amended), at the spec's own example: documents `"A"`,
`"B"` plus a passthrough key `other`, default key configuration. -/
theorem stuffCall_merges_and_delegates_witness :
    (defaultStuffConfig.inputKey ≠ defaultStuffConfig.documentVariableName ∧
      lookup [("input_documents", ChainValue.docs [⟨"A"⟩, ⟨"B"⟩]), ("other", ChainValue.num 1)]
          defaultStuffConfig.inputKey = some (.docs [⟨"A"⟩, ⟨"B"⟩])) ∧
    ∃ m, StuffDocumentsChain._call defaultStuffConfig (fun vs => vs)
          [("input_documents", ChainValue.docs [⟨"A"⟩, ⟨"B"⟩]), ("other", ChainValue.num 1)] =
        (.ok ((fun vs => vs) m), [m]) ∧
      lookup m defaultStuffConfig.inputKey = none ∧
      (∀ k, k ≠ defaultStuffConfig.inputKey → k ≠ defaultStuffConfig.documentVariableName →
        lookup m k =
          lookup [("input_documents", ChainValue.docs [⟨"A"⟩, ⟨"B"⟩]), ("other", ChainValue.num 1)] k) ∧
      lookup m defaultStuffConfig.documentVariableName =
        some (.str (String.intercalate "\n\n"
          (([⟨"A"⟩, ⟨"B"⟩] : List Document).map Document.pageContent))) :=
  ⟨⟨by decide, by decide⟩,
    stuffCall_merges_and_delegates defaultStuffConfig (fun vs => vs)
      [("input_documents", ChainValue.docs [⟨"A"⟩, ⟨"B"⟩]), ("other", ChainValue.num 1)]
      [⟨"A"⟩, ⟨"B"⟩] (by decide) (by decide)⟩

/-- Counterexample to C4 as stated: with default keys, an input map that
already binds `"context"` (a key other than the input key) does **not**
keep that key unchanged — the inner component sees `"context"` rebound to
the joined document text (here `""`), not the original value `1`. -/
theorem stuffCall_context_overwrite_cex :
    (StuffDocumentsChain._call defaultStuffConfig (fun vs => vs)
        [("input_documents", ChainValue.docs []), ("context", ChainValue.num 1)]).2 =
      [[("context", ChainValue.str "")]] ∧
    lookup [("input_documents", ChainValue.docs []), ("context", ChainValue.num 1)] "context" =
      some (ChainValue.num 1) ∧
    ("context" : String) ≠ defaultStuffConfig.inputKey := by
  refine ⟨?_, by decide, by decide⟩
  decide

/-- Claim C8: if the configured input key is absent from the input map,
`_call` fails with the error naming the missing key and the inner
component receives zero invocations (empty trace). -/
theorem stuffCall_missing_input (c : StuffConfig) (innerCall : ChainValues → ChainValues)
    (values : ChainValues) (h : lookup values c.inputKey = none) :
    StuffDocumentsChain._call c innerCall values =
      (.error ("Document key " ++ c.inputKey ++ " not found."), []) := by
  simp [StuffDocumentsChain._call, h]

/-- Witness for C8: default keys, input map without `input_documents`. -/
theorem stuffCall_missing_input_witness :
    lookup [("other", ChainValue.num 1)] defaultStuffConfig.inputKey = none ∧
    StuffDocumentsChain._call defaultStuffConfig (fun vs => vs) [("other", ChainValue.num 1)] =
      (.error ("Document key " ++ defaultStuffConfig.inputKey ++ " not found."), []) :=
  ⟨by decide,
    stuffCall_missing_input defaultStuffConfig (fun vs => vs) [("other", ChainValue.num 1)]
      (by decide)⟩

/-! ## Claims about serialization -/

/-- Claim C6: deserializing the result of serializing a stage reconstructs
a stage with the same inner component (same type and configuration), both
for the inline form (which `serialize` produces) and for the
external-reference form resolved through the environment. -/
theorem stuffChain_serialize_roundtrip (c : StuffDocumentsChain)
    (env : String → Option SerializedLLMChain) (path : String)
    (henv : env path = some c.llmChain.serialize) :
    (∃ c₁, StuffDocumentsChain.deserialize env c.serialize = .ok c₁ ∧
      c₁.llmChain = c.llmChain) ∧
    (∃ c₂, StuffDocumentsChain.deserialize env
        { llm_chain := none, llm_chain_path := some path } = .ok c₂ ∧
      c₂.llmChain = c.llmChain) := by
  constructor
  · refine ⟨mkStuffDocumentsChain (LLMChain.deserialize c.llmChain.serialize), ?_, rfl⟩
    simp [StuffDocumentsChain.deserialize, StuffDocumentsChain.serialize, resolveConfigFromFile]
  · refine ⟨mkStuffDocumentsChain (LLMChain.deserialize c.llmChain.serialize), ?_, rfl⟩
    simp [StuffDocumentsChain.deserialize, resolveConfigFromFile, henv]

/-- Witness for C6 at a concrete stage and resolution environment. -/
theorem stuffChain_serialize_roundtrip_witness :
    ((fun p => if p = "llm_chain.json" then some (⟨"llm", [("model", "m")]⟩ : SerializedLLMChain)
        else none) "llm_chain.json" =
      some (StuffDocumentsChain.mk ⟨⟨"llm", [("model", "m")]⟩⟩ {}).llmChain.serialize) ∧
    ((∃ c₁, StuffDocumentsChain.deserialize
          (fun p => if p = "llm_chain.json" then some (⟨"llm", [("model", "m")]⟩ : SerializedLLMChain)
            else none)
          (StuffDocumentsChain.mk ⟨⟨"llm", [("model", "m")]⟩⟩ {}).serialize = .ok c₁ ∧
        c₁.llmChain = (StuffDocumentsChain.mk ⟨⟨"llm", [("model", "m")]⟩⟩ {}).llmChain) ∧
      (∃ c₂, StuffDocumentsChain.deserialize
          (fun p => if p = "llm_chain.json" then some (⟨"llm", [("model", "m")]⟩ : SerializedLLMChain)
            else none)
          { llm_chain := none, llm_chain_path := some "llm_chain.json" } = .ok c₂ ∧
        c₂.llmChain = (StuffDocumentsChain.mk ⟨⟨"llm", [("model", "m")]⟩⟩ {}).llmChain)) :=
  ⟨by simp [LLMChain.serialize],
    stuffChain_serialize_roundtrip (StuffDocumentsChain.mk ⟨⟨"llm", [("model", "m")]⟩⟩ {})
      (fun p => if p = "llm_chain.json" then some (⟨"llm", [("model", "m")]⟩ : SerializedLLMChain)
        else none)
      "llm_chain.json" (by simp [LLMChain.serialize])⟩

/-- Claim C9: every stage produced by `deserialize` carries the default
key names — the key names are not part of the serialized form, so a stage
constructed with non-default keys comes back with the defaults. -/
theorem stuffChain_deserialize_default_keys (env : String → Option SerializedLLMChain)
    (data : SerializedStuffDocumentsChain) (c' : StuffDocumentsChain)
    (h : StuffDocumentsChain.deserialize env data = .ok c') :
    c'.keys.inputKey = "input_documents" ∧ c'.keys.outputKey = "output_text" ∧
      c'.keys.documentVariableName = "context" := by
  unfold StuffDocumentsChain.deserialize at h
  cases hres : resolveConfigFromFile env data.llm_chain data.llm_chain_path with
  | error e => rw [hres] at h; cases h
  | ok cfg =>
    rw [hres] at h
    cases h
    simp [mkStuffDocumentsChain, defaultStuffConfig]

/-- Witness for C9: a stage built with non-default key names, serialized
and deserialized, comes back with the default key names. -/
theorem stuffChain_deserialize_default_keys_witness :
    StuffDocumentsChain.deserialize (fun _ => none)
        (StuffDocumentsChain.serialize
          (mkStuffDocumentsChain ⟨⟨"llm", []⟩⟩ (some "docs") (some "out") (some "ctx"))) =
      .ok (mkStuffDocumentsChain ⟨⟨"llm", []⟩⟩) ∧
    ((mkStuffDocumentsChain ⟨⟨"llm", []⟩⟩).keys.inputKey = "input_documents" ∧
      (mkStuffDocumentsChain ⟨⟨"llm", []⟩⟩).keys.outputKey = "output_text" ∧
      (mkStuffDocumentsChain ⟨⟨"llm", []⟩⟩).keys.documentVariableName = "context") :=
  ⟨by decide,
    stuffChain_deserialize_default_keys (fun _ => none)
      (StuffDocumentsChain.serialize
        (mkStuffDocumentsChain ⟨⟨"llm", []⟩⟩ (some "docs") (some "out") (some "ctx")))
      (mkStuffDocumentsChain ⟨⟨"llm", []⟩⟩) (by decide)⟩

/-! ## Chunk length lemmas -/

theorem chunksOfCore_ne_nil (kp : Nat) (xs : List α) (hx : xs ≠ []) :
    chunksOfCore kp xs ≠ [] := by
  cases xs with
  | nil => exact absurd rfl hx
  | cons x tl => rw [chunksOfCore_cons]; simp

/-- Every chunk except possibly the last has length exactly `kp + 1`. -/
theorem chunksOfCore_dropLast_length (kp : Nat) (xs : List α) :
    ∀ l ∈ (chunksOfCore kp xs).dropLast, l.length = kp + 1 := by
  have H : ∀ n (xs : List α), xs.length ≤ n →
      ∀ l ∈ (chunksOfCore kp xs).dropLast, l.length = kp + 1 := by
    intro n
    induction n with
    | zero =>
      intro xs hx l hl
      have hnil : xs = [] := List.length_eq_zero.mp (Nat.le_zero.mp hx)
      subst hnil
      rw [chunksOfCore_nil] at hl
      simp at hl
    | succ n ih =>
      intro xs hx l hl
      cases xs with
      | nil =>
        rw [chunksOfCore_nil] at hl
        simp at hl
      | cons x tl =>
        have hlen : (tl.drop kp).length ≤ n := by
          simp only [List.length_drop]
          simp only [List.length_cons] at hx
          omega
        rw [chunksOfCore_cons] at hl
        cases hrest : chunksOfCore kp (tl.drop kp) with
        | nil =>
          rw [hrest] at hl
          simp at hl
        | cons r rs =>
          rw [hrest, List.dropLast_cons₂, List.mem_cons] at hl
          have hdropne : tl.drop kp ≠ [] := by
            intro hd
            rw [hd, chunksOfCore_nil] at hrest
            cases hrest
          have hkp : kp ≤ tl.length := by
            by_contra hle
            exact hdropne (List.drop_eq_nil_of_le (by omega))
          rcases hl with hl | hl
          · subst hl
            simp [List.length_take, Nat.min_eq_left hkp]
          · exact ih (tl.drop kp) hlen l (by rw [hrest]; exact hl)
  exact H xs.length xs le_rfl

/-- The last chunk has length `xs.length % (kp + 1)` when the length is
not a multiple of `kp + 1`, and full length `kp + 1` otherwise. -/
theorem chunksOfCore_getLast_length (kp : Nat) (xs : List α) (hx : xs ≠ []) :
    (chunksOfCore kp xs).getLast?.map List.length =
      some (if xs.length % (kp + 1) = 0 then kp + 1 else xs.length % (kp + 1)) := by
  have H : ∀ n (xs : List α), xs.length ≤ n → xs ≠ [] →
      (chunksOfCore kp xs).getLast?.map List.length =
        some (if xs.length % (kp + 1) = 0 then kp + 1 else xs.length % (kp + 1)) := by
    intro n
    induction n with
    | zero =>
      intro xs hx hne
      exact absurd (List.length_eq_zero.mp (Nat.le_zero.mp hx)) hne
    | succ n ih =>
      intro xs hx hne
      cases xs with
      | nil => exact absurd rfl hne
      | cons x tl =>
        by_cases hdrop : tl.drop kp = []
        · have htl : tl.length ≤ kp := by
            have := List.drop_eq_nil_iff.mp hdrop
            omega
          have hcs : chunksOfCore kp (x :: tl) = [x :: tl.take kp] := by
            rw [chunksOfCore_cons, hdrop, chunksOfCore_nil]
          have htake : tl.take kp = tl := List.take_of_length_le htl
          rw [hcs, htake]
          simp only [List.getLast?_singleton, Option.map_some, List.length_cons]
          by_cases hm : tl.length = kp
          · subst hm
            simp [Nat.mod_self]
          · have hlt : tl.length + 1 < kp + 1 := by omega
            rw [Nat.mod_eq_of_lt hlt]
            have : tl.length + 1 ≠ 0 := by omega
            simp [this]
        · have hkp : kp < tl.length := by
            by_contra hle
            exact hdrop (List.drop_eq_nil_of_le (by omega))
          have hlen : (tl.drop kp).length ≤ n := by
            simp only [List.length_drop]
            simp only [List.length_cons] at hx
            omega
          have hrec := ih (tl.drop kp) hlen hdrop
          rw [chunksOfCore_cons]
          cases hrest : chunksOfCore kp (tl.drop kp) with
          | nil => exact absurd hrest (chunksOfCore_ne_nil kp _ hdrop)
          | cons r rs =>
            rw [List.getLast?_cons_cons]
            rw [hrest] at hrec
            rw [hrec]
            have hL : (tl.drop kp).length = tl.length - kp := by
              simp [List.length_drop]
            have hxs : (x :: tl).length = (kp + 1) + (tl.length - kp) := by
              simp only [List.length_cons]
              omega
            rw [hL, hxs, Nat.add_mod_left]
  exact H xs.length xs le_rfl hx

/-! ## Claim about the Chunker -/

/-- Claim C5: for every sequence `S` and positive chunk size `k`, the
Chunker succeeds with chunks whose in-order concatenation reproduces `S`;
every chunk except possibly the last has length `k`; the last chunk has
length `S.length % k` when `k` does not divide `S.length` and full length
`k` otherwise; and chunk size `0` (the only non-positive natural) fails
with `InvalidArgument`.  Purity holds by construction: `chunkArray` is a
function.  (`chunkArray` is not among the sources; it is modelled from the
spec, section 4.1.) -/
theorem chunkArray_contract {α : Type} (S : List α) (k : Nat) (hk : k ≠ 0) :
    chunkArray S 0 = (.error .invalidArgument : Except UtilError (List (List α))) ∧
    ∃ cs, chunkArray S k = .ok cs ∧
      cs.flatten = S ∧
      (∀ l ∈ cs.dropLast, l.length = k) ∧
      (S ≠ [] → cs.getLast?.map List.length =
        some (if S.length % k = 0 then k else S.length % k)) := by
  obtain ⟨kp, rfl⟩ : ∃ kp, k = kp + 1 := ⟨k - 1, by omega⟩
  refine ⟨rfl, chunksOfCore kp S, ?_, ?_, ?_, ?_⟩
  · simp [chunkArray]
  · exact chunksOfCore_flatten kp S
  · exact chunksOfCore_dropLast_length kp S
  · intro hS
    exact chunksOfCore_getLast_length kp S hS

/-- Witness for C5 at `S = [1,2,3,4,5]`, `k = 2` (a non-dividing size, so
the last chunk has length `5 % 2 = 1`). -/
theorem chunkArray_contract_witness :
    (2 : Nat) ≠ 0 ∧
    (chunkArray ([1, 2, 3, 4, 5] : List Nat) 0 =
        (.error .invalidArgument : Except UtilError (List (List Nat))) ∧
      ∃ cs, chunkArray ([1, 2, 3, 4, 5] : List Nat) 2 = .ok cs ∧
        cs.flatten = [1, 2, 3, 4, 5] ∧
        (∀ l ∈ cs.dropLast, l.length = 2) ∧
        (([1, 2, 3, 4, 5] : List Nat) ≠ [] → cs.getLast?.map List.length =
          some (if ([1, 2, 3, 4, 5] : List Nat).length % 2 = 0 then 2
            else ([1, 2, 3, 4, 5] : List Nat).length % 2))) :=
  ⟨by decide, chunkArray_contract [1, 2, 3, 4, 5] 2 (by decide)⟩

/-! ## Token usage accumulation -/

/-- The numeric completion-token contribution of one batch response
(absent counting as zero). -/
def usageCompletionValue (u : Option Usage) : Nat :=
  ((u.getD {}).completion_tokens).getD 0

/-- The numeric prompt-token contribution of one batch response. -/
def usagePromptValue (u : Option Usage) : Nat :=
  ((u.getD {}).prompt_tokens).getD 0

/-- The numeric total-token contribution of one batch response. -/
def usageTotalValue (u : Option Usage) : Nat :=
  ((u.getD {}).total_tokens).getD 0

theorem foldl_addCounter_char (vs : List (Option Nat)) (acc : Option Nat) :
    vs.foldl addCounter acc =
      if (vs.map (fun v => v.getD 0)).sum = 0 then acc
      else some (acc.getD 0 + (vs.map (fun v => v.getD 0)).sum) := by
  induction vs generalizing acc with
  | nil => simp
  | cons v vs ih =>
    rw [List.foldl_cons, ih]
    cases v with
    | none => simp [addCounter]
    | some m =>
      by_cases hm : m = 0
      · subst hm
        simp [addCounter]
      · simp only [addCounter, if_neg hm, List.map_cons, List.sum_cons, Option.getD_some]
        by_cases hs : (vs.map (fun v => v.getD 0)).sum = 0
        · rw [hs]
          simp [hm]
        · have hms : ¬ (m + (vs.map (fun v => v.getD 0)).sum = 0) := by omega
          simp only [if_neg hs, if_neg hms, Option.getD_some]
          congr 1
          omega

theorem foldl_addUsage_fields (us : List (Option Usage)) (acc : TokenUsage) :
    us.foldl addUsage acc =
      { completionTokens :=
          (us.map (fun u => (u.getD {}).completion_tokens)).foldl addCounter acc.completionTokens
        promptTokens :=
          (us.map (fun u => (u.getD {}).prompt_tokens)).foldl addCounter acc.promptTokens
        totalTokens :=
          (us.map (fun u => (u.getD {}).total_tokens)).foldl addCounter acc.totalTokens } := by
  induction us generalizing acc with
  | nil => rfl
  | cons u us ih => simp [List.foldl_cons, ih, addUsage]

/-- Closed form of the accumulated usage: each counter is the sum of the
per-batch numeric contributions, and it is present exactly when that sum
is nonzero. -/
theorem accumulateUsage_char (us : List (Option Usage)) :
    accumulateUsage us =
      { completionTokens :=
          if (us.map usageCompletionValue).sum = 0 then none
          else some ((us.map usageCompletionValue).sum)
        promptTokens :=
          if (us.map usagePromptValue).sum = 0 then none
          else some ((us.map usagePromptValue).sum)
        totalTokens :=
          if (us.map usageTotalValue).sum = 0 then none
          else some ((us.map usageTotalValue).sum) } := by
  unfold accumulateUsage
  rw [foldl_addUsage_fields]
  congr 1 <;>
    rw [foldl_addCounter_char] <;>
    simp only [List.map_map, Function.comp_def, Option.getD_none, Nat.zero_add] <;>
    rfl

theorem natList_sum_eq_zero_iff (l : List Nat) : l.sum = 0 ↔ ∀ x ∈ l, x = 0 := by
  induction l with
  | nil => simp
  | cons x l ih =>
    simp only [List.sum_cons, List.mem_cons]
    constructor
    · intro h y hy
      rcases hy with rfl | hy
      · omega
      · exact (ih.mp (by omega)) y hy
    · intro h
      have hx : x = 0 := h x (Or.inl rfl)
      have hl : l.sum = 0 := ih.mpr (fun y hy => h y (Or.inr hy))
      omega

/-- Claim C3 (amended): each aggregated counter's numeric value is the sum
of that counter over all per-batch responses (an absent counter
contributing zero); accumulating the per-batch usages in any order yields
the same aggregate (including presence); and an aggregated counter is
absent if and only if no batch ever reported a **nonzero** value for it —
a batch reporting the counter with value `0` is treated exactly like an
absent counter by the truthiness guard and does not make the aggregate
present (this last clause is what the amendment weakens relative to the
original claim). -/
theorem tokenUsage_accumulation (us vs : List (Option Usage)) (hperm : us.Perm vs) :
    ((accumulateUsage us).completionTokens.getD 0 = (us.map usageCompletionValue).sum ∧
      (accumulateUsage us).promptTokens.getD 0 = (us.map usagePromptValue).sum ∧
      (accumulateUsage us).totalTokens.getD 0 = (us.map usageTotalValue).sum) ∧
    accumulateUsage us = accumulateUsage vs ∧
    ((accumulateUsage us).completionTokens = none ↔ ∀ u ∈ us, usageCompletionValue u = 0) ∧
    ((accumulateUsage us).promptTokens = none ↔ ∀ u ∈ us, usagePromptValue u = 0) ∧
    ((accumulateUsage us).totalTokens = none ↔ ∀ u ∈ us, usageTotalValue u = 0) := by
  have hsum : ∀ f : Option Usage → Nat, (us.map f).sum = (vs.map f).sum :=
    fun f => (hperm.map f).sum_eq
  have hval : ∀ (l : List Nat), (if l.sum = 0 then (none : Option Nat) else some l.sum).getD 0 =
      l.sum := by
    intro l
    by_cases h : l.sum = 0 <;> simp [h]
  have habs : ∀ (l : List Nat), ((if l.sum = 0 then (none : Option Nat) else some l.sum) = none ↔
      ∀ x ∈ l, x = 0) := by
    intro l
    by_cases h : l.sum = 0
    · constructor
      · intro _
        exact (natList_sum_eq_zero_iff l).mp h
      · intro _
        rw [if_pos h]
    · simp only [if_neg h]
      constructor
      · intro hc
        exact Option.noConfusion hc
      · intro hall
        exact absurd ((natList_sum_eq_zero_iff l).mpr hall) h
  refine ⟨⟨?_, ?_, ?_⟩, ?_, ?_, ?_, ?_⟩
  · rw [accumulateUsage_char]; exact hval _
  · rw [accumulateUsage_char]; exact hval _
  · rw [accumulateUsage_char]; exact hval _
  · rw [accumulateUsage_char us, accumulateUsage_char vs,
      hsum usageCompletionValue, hsum usagePromptValue, hsum usageTotalValue]
  · rw [accumulateUsage_char]
    simpa using (habs (us.map usageCompletionValue))
  · rw [accumulateUsage_char]
    simpa using (habs (us.map usagePromptValue))
  · rw [accumulateUsage_char]
    simpa using (habs (us.map usageTotalValue))

/-- Witness for C3 (amended): two batches, one reporting counters and one
reporting none, in both orders (the permutation hypothesis instantiated
with the two-element swap). -/
theorem tokenUsage_accumulation_witness :
    ([some ({ completion_tokens := some 3, prompt_tokens := some 5 } : Usage), none].Perm
      [none, some ({ completion_tokens := some 3, prompt_tokens := some 5 } : Usage)]) ∧
    (((accumulateUsage [some { completion_tokens := some 3, prompt_tokens := some 5 }, none]).completionTokens.getD 0 =
        ([some ({ completion_tokens := some 3, prompt_tokens := some 5 } : Usage), none].map usageCompletionValue).sum ∧
      (accumulateUsage [some { completion_tokens := some 3, prompt_tokens := some 5 }, none]).promptTokens.getD 0 =
        ([some ({ completion_tokens := some 3, prompt_tokens := some 5 } : Usage), none].map usagePromptValue).sum ∧
      (accumulateUsage [some { completion_tokens := some 3, prompt_tokens := some 5 }, none]).totalTokens.getD 0 =
        ([some ({ completion_tokens := some 3, prompt_tokens := some 5 } : Usage), none].map usageTotalValue).sum) ∧
    accumulateUsage [some { completion_tokens := some 3, prompt_tokens := some 5 }, none] =
      accumulateUsage [none, some { completion_tokens := some 3, prompt_tokens := some 5 }] ∧
    ((accumulateUsage [some { completion_tokens := some 3, prompt_tokens := some 5 }, none]).completionTokens = none ↔
      ∀ u ∈ [some ({ completion_tokens := some 3, prompt_tokens := some 5 } : Usage), none],
        usageCompletionValue u = 0) ∧
    ((accumulateUsage [some { completion_tokens := some 3, prompt_tokens := some 5 }, none]).promptTokens = none ↔
      ∀ u ∈ [some ({ completion_tokens := some 3, prompt_tokens := some 5 } : Usage), none],
        usagePromptValue u = 0) ∧
    ((accumulateUsage [some { completion_tokens := some 3, prompt_tokens := some 5 }, none]).totalTokens = none ↔
      ∀ u ∈ [some ({ completion_tokens := some 3, prompt_tokens := some 5 } : Usage), none],
        usageTotalValue u = 0)) :=
  ⟨List.Perm.swap _ _ _,
    tokenUsage_accumulation
      [some { completion_tokens := some 3, prompt_tokens := some 5 }, none]
      [none, some { completion_tokens := some 3, prompt_tokens := some 5 }]
      (List.Perm.swap _ _ _)⟩

/-- Counterexample to C3 as stated: a single batch response that reports
`completion_tokens` with value `0` yields an aggregate whose completion
counter is **absent**, although a batch did report it — refuting "the
aggregated counter is absent only if no batch ever reported it". -/
theorem tokenUsage_zero_report_cex :
    (accumulateUsage [some { completion_tokens := some 0 }]).completionTokens = none ∧
    (({ completion_tokens := some 0 } : Usage)).completion_tokens.isSome = true := by
  constructor
  · rfl
  · rfl

/-! ## Batch loop lemmas -/

/-- Running the batch loop against a transport that answers every request
with the per-prompt choices given by `f` (each prompt's replicas contiguous
and in prompt order, as the OpenAI response contract guarantees) succeeds,
accumulating the flattened choices, the folded usage, and one request per
batch. -/
theorem runBatches_ideal {ε : Type} (f : String → List Choice) (u : List String → Option Usage)
    (call : CompletionRequest → Except ε CompletionResponse) (params : CompletionRequest)
    (hcall : ∀ b : List String, call { params with prompt := b } =
      .ok { choices := (b.map f).flatten, usage := u b }) :
    ∀ (bs : List (List String)) (acc : List Choice) (usage : TokenUsage),
      runBatches call params bs acc usage =
        (.ok (acc ++ (bs.map (fun b => (b.map f).flatten)).flatten,
          (bs.map u).foldl addUsage usage),
          bs.map (fun b => { params with prompt := b })) := by
  intro bs
  induction bs with
  | nil =>
    intro acc usage
    simp [runBatches]
  | cons b bs ih =>
    intro acc usage
    simp only [runBatches, hcall b, List.map_cons, List.foldl_cons, List.flatten_cons]
    rw [ih]
    simp [List.append_assoc]

/-- If the transport succeeds on every batch of a prefix and fails on the
next batch, the loop's result is that transport error. -/
theorem runBatches_fails_at_first_error {ε : Type}
    (call : CompletionRequest → Except ε CompletionResponse)
    (params : CompletionRequest) (e : ε) :
    ∀ (bs₁ : List (List String)) (b : List String) (bs₂ : List (List String))
      (acc : List Choice) (usage : TokenUsage),
      (∀ b' ∈ bs₁, ∃ r, call { params with prompt := b' } = .ok r) →
      call { params with prompt := b } = .error e →
      (runBatches call params (bs₁ ++ b :: bs₂) acc usage).1 = .error (.transport e) := by
  intro bs₁
  induction bs₁ with
  | nil =>
    intro b bs₂ acc usage _ herr
    simp [runBatches, herr]
  | cons b' bs₁ ih =>
    intro b bs₂ acc usage hok herr
    obtain ⟨r, hr⟩ := hok b' (by simp)
    simp only [List.cons_append, runBatches, hr]
    exact ih b bs₂ _ _ (fun x hx => hok x (by simp [hx])) herr

theorem flatten_map_flatten_map {α β : Type} (f : α → List β) (bs : List (List α)) :
    (bs.map (fun b => (b.map f).flatten)).flatten = (bs.flatten.map f).flatten := by
  induction bs with
  | nil => simp
  | cons b bs ih => simp [ih]

/-! ## Claims about `OpenAI._generate` -/

/-- Claim C1: for prompts of length `p` and replication factor `n`, when
every batch's remote call succeeds — returning, for each batch, the `n`
replicas of each of its prompts contiguously and in prompt order
(modelled by the per-prompt choice assignment `f` with `(f p).length = n`)
— the result has exactly `p` per-prompt groups, each of length `n`,
aligned with the original prompt order, for every configured batch size.
(`chunkArray` is not among the sources; it is modelled from the spec,
which is why the batch size must be nonzero for the call to pass the
Chunker.) -/
theorem generate_group_alignment {ε : Type} (cfg : OpenAIConfig)
    (f : String → List Choice) (u : List String → Option Usage)
    (call : CompletionRequest → Except ε CompletionResponse)
    (prompts : List String) (stop : Option (List String))
    (hn : cfg.n ≠ 0) (hb : cfg.batchSize ≠ 0)
    (hconflict : ¬(cfg.stop.isSome = true ∧ stop.isSome = true))
    (hf : ∀ p ∈ prompts, (f p).length = cfg.n)
    (hcall : ∀ b : List String, call { effectiveParams cfg stop with prompt := b } =
      .ok { choices := (b.map f).flatten, usage := u b }) :
    ∃ res, (OpenAI._generate cfg call prompts stop).1 = .ok res ∧
      res.generations.length = prompts.length ∧
      (∀ g ∈ res.generations, g.length = cfg.n) ∧
      res.generations = prompts.map (fun p => (f p).map choiceToGeneration) := by
  have hchunk : chunkArray prompts cfg.batchSize =
      .ok (chunksOfCore (cfg.batchSize - 1) prompts) := by
    simp [chunkArray, hb]
  have hcond : (cfg.stop.isSome && stop.isSome) = false := by
    cases h1 : cfg.stop.isSome <;> cases h2 : stop.isSome <;> simp_all
  have hchoices : ((chunksOfCore (cfg.batchSize - 1) prompts).map
      (fun b => (b.map f).flatten)).flatten = (prompts.map f).flatten := by
    rw [flatten_map_flatten_map, chunksOfCore_flatten]
  have huniform : chunksOfCore (cfg.n - 1) ((prompts.map f).flatten) = prompts.map f := by
    obtain ⟨np, hnp⟩ : ∃ np, cfg.n = np + 1 := ⟨cfg.n - 1, by omega⟩
    rw [hnp]
    simp only [Nat.add_sub_cancel]
    apply chunksOfCore_flatten_of_uniform
    intro l hl
    obtain ⟨p, hp, rfl⟩ := List.mem_map.mp hl
    rw [hf p hp, hnp]
  have hregroup : chunkArray ((prompts.map f).flatten) cfg.n = .ok (prompts.map f) := by
    simp [chunkArray, hn, huniform]
  unfold OpenAI._generate
  rw [hchunk]
  simp only [hcond, Bool.false_eq_true, if_false]
  rw [runBatches_ideal f u call (effectiveParams cfg stop) hcall]
  simp only [List.nil_append, hchoices, hregroup]
  refine ⟨_, rfl, ?_, ?_, ?_⟩
  · simp
  · intro g hg
    simp only [List.map_map, List.mem_map] at hg
    obtain ⟨p, hp, rfl⟩ := hg
    simp [Function.comp, hf p hp]
  · simp [List.map_map, Function.comp_def]

/-- Concrete engine configuration for the C1 witness: replication factor
`2`, batch size `2`, so three prompts split unevenly into two batches. -/
def wCfg : OpenAIConfig := { n := 2, batchSize := 2 }

/-- Concrete per-prompt choice assignment for the C1 witness: two replicas
per prompt. -/
def wF (p : String) : List Choice :=
  [{ text := some p }, { text := none }]

/-- Concrete transport for the C1 witness: echoes each request's prompts
through `wF`, replicas contiguous and in prompt order. -/
def wCall (req : CompletionRequest) : Except String CompletionResponse :=
  .ok { choices := (req.prompt.map wF).flatten, usage := none }

/-- Witness for C1: three prompts, replication factor `2`, batch size `2`
(so the batch partition `[["a","b"],["c"]]` differs from the regrouping
partition by `n = 2`). -/
theorem generate_group_alignment_witness :
    (wCfg.n ≠ 0 ∧ wCfg.batchSize ≠ 0 ∧
      ¬(wCfg.stop.isSome = true ∧ (none : Option (List String)).isSome = true) ∧
      (∀ p ∈ ["a", "b", "c"], (wF p).length = wCfg.n) ∧
      (∀ b : List String, wCall { effectiveParams wCfg none with prompt := b } =
        .ok { choices := (b.map wF).flatten, usage := none })) ∧
    ∃ res, (OpenAI._generate wCfg wCall ["a", "b", "c"] none).1 = .ok res ∧
      res.generations.length = (["a", "b", "c"] : List String).length ∧
      (∀ g ∈ res.generations, g.length = wCfg.n) ∧
      res.generations =
        (["a", "b", "c"] : List String).map (fun p => (wF p).map choiceToGeneration) :=
  ⟨⟨by decide, by decide, by decide, by decide, fun b => rfl⟩,
    generate_group_alignment wCfg wF (fun _ => none) wCall ["a", "b", "c"] none
      (by decide) (by decide) (by decide) (by decide) (fun b => rfl)⟩

/-- Claim C2: when the configured stop list is non-empty and the override
is non-empty, `_generate` fails with the stop-conflict error and the
transport receives zero invocations (the returned request trace is empty),
for every transport.  (The nonzero batch size is needed because the
spec-modelled Chunker rejects size `0` before the conflict check runs.) -/
theorem generate_stop_conflict_nonempty {ε : Type} (cfg : OpenAIConfig)
    (call : CompletionRequest → Except ε CompletionResponse)
    (prompts : List String) (s t : List String)
    (hb : cfg.batchSize ≠ 0) (hs : cfg.stop = some s) (hsne : s ≠ []) (htne : t ≠ []) :
    OpenAI._generate cfg call prompts (some t) = (.error .configConflict, []) := by
  unfold OpenAI._generate
  simp [chunkArray, hb, hs]

/-- Witness for C2 at a concrete engine, prompt list and override. -/
theorem generate_stop_conflict_nonempty_witness :
    (({ stop := some ["END"] } : OpenAIConfig).batchSize ≠ 0 ∧
      ({ stop := some ["END"] } : OpenAIConfig).stop = some ["END"] ∧
      (["END"] : List String) ≠ [] ∧ (["STOP"] : List String) ≠ []) ∧
    OpenAI._generate ({ stop := some ["END"] } : OpenAIConfig)
        (fun _ => (.error "unreached" : Except String CompletionResponse))
        ["x"] (some ["STOP"]) =
      (.error .configConflict, []) :=
  ⟨⟨by decide, by decide, by decide, by decide⟩,
    generate_stop_conflict_nonempty { stop := some ["END"] }
      (fun _ => (.error "unreached" : Except String CompletionResponse))
      ["x"] ["END"] ["STOP"] (by decide) (by decide) (by decide) (by decide)⟩

/-- Claim C10: the stop-conflict check tests definedness, not
non-emptiness — whenever the configured stop list is defined (possibly
empty) and the override is defined (possibly empty), `_generate` fails
with the conflict error before any transport call. -/
theorem generate_stop_conflict_definedness {ε : Type} (cfg : OpenAIConfig)
    (call : CompletionRequest → Except ε CompletionResponse)
    (prompts : List String) (t : List String)
    (hb : cfg.batchSize ≠ 0) (hs : cfg.stop.isSome = true) :
    OpenAI._generate cfg call prompts (some t) = (.error .configConflict, []) := by
  obtain ⟨s, hs'⟩ := Option.isSome_iff_exists.mp hs
  unfold OpenAI._generate
  simp [chunkArray, hb, hs']

/-- Witness for C10 with **both** stop lists empty: the conflict still
fires, showing the check is on definedness. -/
theorem generate_stop_conflict_definedness_witness :
    (({ stop := some [] } : OpenAIConfig).batchSize ≠ 0 ∧
      ({ stop := some [] } : OpenAIConfig).stop.isSome = true) ∧
    OpenAI._generate ({ stop := some [] } : OpenAIConfig)
        (fun _ => (.error "unreached" : Except String CompletionResponse))
        ["x"] (some []) =
      (.error .configConflict, []) :=
  ⟨⟨by decide, by decide⟩,
    generate_stop_conflict_definedness { stop := some [] }
      (fun _ => (.error "unreached" : Except String CompletionResponse))
      ["x"] [] (by decide) (by decide)⟩

/-- Claim C7: if the remote call for some batch fails (after the earlier
batches succeeded), the whole `_generate` call fails with exactly that
transport error — the result is a bare `Except.error` carrying no partial
usage or completions from the earlier successful batches. -/
theorem generate_aborts_on_batch_failure {ε : Type} (cfg : OpenAIConfig)
    (call : CompletionRequest → Except ε CompletionResponse)
    (prompts : List String) (stop : Option (List String))
    (bs₁ : List (List String)) (b : List String) (bs₂ : List (List String)) (e : ε)
    (hb : cfg.batchSize ≠ 0)
    (hconflict : ¬(cfg.stop.isSome = true ∧ stop.isSome = true))
    (hsplit : chunksOfCore (cfg.batchSize - 1) prompts = bs₁ ++ b :: bs₂)
    (hok : ∀ b' ∈ bs₁, ∃ r, call (requestFor cfg stop b') = .ok r)
    (herr : call (requestFor cfg stop b) = .error e) :
    (OpenAI._generate cfg call prompts stop).1 = .error (.transport e) := by
  have hchunk : chunkArray prompts cfg.batchSize =
      .ok (chunksOfCore (cfg.batchSize - 1) prompts) := by
    simp [chunkArray, hb]
  have hcond : (cfg.stop.isSome && stop.isSome) = false := by
    cases h1 : cfg.stop.isSome <;> cases h2 : stop.isSome <;> simp_all
  have hrb := runBatches_fails_at_first_error call (effectiveParams cfg stop) e bs₁ b bs₂
    [] {} hok herr
  unfold OpenAI._generate
  rw [hchunk, hsplit]
  simp only [hcond, Bool.false_eq_true, if_false]
  rcases hpair : runBatches call (effectiveParams cfg stop) (bs₁ ++ b :: bs₂) [] {} with ⟨r, reqs⟩
  rw [hpair] at hrb
  have hr : r = .error (.transport e) := hrb
  subst hr
  rfl

/-- Witness for C7: one prompt, a transport that always fails. -/
theorem generate_aborts_on_batch_failure_witness :
    (({} : OpenAIConfig).batchSize ≠ 0 ∧
      ¬(({} : OpenAIConfig).stop.isSome = true ∧
        (none : Option (List String)).isSome = true) ∧
      chunksOfCore (({} : OpenAIConfig).batchSize - 1) ["p"] = [] ++ ["p"] :: [] ∧
      (∀ b' ∈ ([] : List (List String)),
        ∃ r, (fun _ => (.error "boom" : Except String CompletionResponse))
          (requestFor {} none b') = .ok r) ∧
      (fun _ => (.error "boom" : Except String CompletionResponse))
          (requestFor {} none ["p"]) = .error "boom") ∧
    (OpenAI._generate ({} : OpenAIConfig)
        (fun _ => (.error "boom" : Except String CompletionResponse)) ["p"] none).1 =
      .error (.transport "boom") :=
  ⟨⟨by decide, by decide, by rw [chunksOfCore_cons]; simp [chunksOfCore_nil],
      by simp, rfl⟩,
    generate_aborts_on_batch_failure {} (fun _ => .error "boom") ["p"] none [] ["p"] [] "boom"
      (by decide) (by decide) (by rw [chunksOfCore_cons]; simp [chunksOfCore_nil])
      (by simp) rfl⟩

end LangChain
